import Mathlib

/-!
Verification of the PhishNet social-engineering scoring core.

This file gives a shallow embedding of the scoring / training code of the
repository (src/utils.py and src/train_social.py) and proves the stated
properties of the rule engine, the score fusion, the threshold resolution
and the training pipeline helpers.

Modelling conventions:
- Python floats are modelled as rationals (exact arithmetic).
- The compiled regular expressions of the indicator catalog are modelled as
  executable word-boundary searches over the lowercased text (the patterns
  in the source are all lowercase and compiled with re.I).
- The loaded sklearn pipeline is not embedded; it is modelled as an optional
  function from text to an optional probability (none for the whole
  classifier models a missing artifact, an inner none models predict_proba
  raising for that call).
- Python list(set(xs)) has a hash-dependent, unspecified iteration order;
  it is modelled as deduplication keeping the first occurrence.
-/

set_option maxRecDepth 8000

/-- ASCII lowercasing of a string, as a character list; models matching the
lowercase source patterns under re.I. -/
def lowercase (s : String) : List Char := s.toList.map Char.toLower

/-- Word character in the sense of the regex word class. -/
def isWordChar (c : Char) : Bool := c.isAlphanum || c == '_'

/-- Regex word-boundary condition between the edge character of a pattern
and the adjacent text character (none when the pattern edge is at the start
or end of the text). -/
def boundaryOk (inner : Option Char) (outer : Option Char) : Bool :=
  match inner with
  | none => false
  | some c =>
    if isWordChar c then
      match outer with
      | none => true
      | some o => !(isWordChar o)
    else
      match outer with
      | none => false
      | some o => isWordChar o

/-- Search for an occurrence of pat with word boundaries on both sides;
prev is the character just before the current position. -/
def occursWBAux (pat : List Char) (prev : Option Char) : List Char → Bool
  | [] => false
  | c :: rest =>
    (pat.isPrefixOf (c :: rest) && boundaryOk pat.head? prev
      && boundaryOk pat.getLast? ((c :: rest).drop pat.length).head?)
    || occursWBAux pat (some c) rest

/-- A whole-word (both regex boundaries) case-insensitive search of pat in
text. -/
def occursWB (text : String) (pat : String) : Bool :=
  occursWBAux pat.toList none (lowercase text)

/-- Alternation of whole-word searches, modelling one compiled pattern of
the indicator catalog. -/
def wbAny (text : String) (pats : List String) : Bool :=
  pats.any (fun p => occursWB text p)

/-- Search for post with a trailing word boundary at or after the current
position, with no newline strictly before the match; models the regex
fragment consisting of a dot-star followed by post and a closing word
boundary. -/
def postSearch (post : List Char) : List Char → Bool
  | [] => false
  | c :: rest =>
    (post.isPrefixOf (c :: rest)
      && boundaryOk post.getLast? ((c :: rest).drop post.length).head?)
    || (!(c == '\n') && postSearch post rest)

/-- Search for pre followed (after any non-newline characters) by post,
with a word boundary before pre and after post. -/
def dotStarAux (pre post : List Char) (prev : Option Char) : List Char → Bool
  | [] => false
  | c :: rest =>
    (pre.isPrefixOf (c :: rest) && boundaryOk pre.head? prev
      && postSearch post ((c :: rest).drop pre.length))
    || dotStarAux pre post (some c) rest

/-- The apostrophe character, used inside several catalog phrases. -/
def APOS : String := String.singleton (Char.ofNat 39)

/-- An entry of RULE_INDICATORS from src/utils.py: a compiled pattern
(modelled as a boolean matcher), a weight and a display description. -/
structure Indicator where
  pattern : String → Bool
  weight : ℚ
  description : String

/-- Matcher of the impersonation indicator of src/utils.py: alternatives
of two literal phrases with a trailing space, a dot-star phrase pair, and
two further literal phrases, all between word boundaries. -/
def impersonationMatch (text : String) : Bool :=
  let cs := lowercase text
  occursWBAux (("i" ++ APOS ++ "m from ").toList) none cs
  || occursWBAux (("i" ++ APOS ++ "m with ").toList) none cs
  || dotStarAux ("this is ".toList) (" from".toList) none cs
  || occursWBAux ("on behalf of".toList) none cs
  || occursWBAux ("im from".toList) none cs

/-- Plain substring search over character lists. -/
def substrSearch (pat : List Char) : List Char → Bool
  | [] => pat.isEmpty
  | c :: rest => pat.isPrefixOf (c :: rest) || substrSearch pat rest

/-- Matcher of the link indicator of src/utils.py (plain substring search,
the source regex has no word boundaries). -/
def linkMatch (text : String) : Bool :=
  substrSearch ("http://".toList) (lowercase text)
  || substrSearch ("https://".toList) (lowercase text)

/-- The RULE_INDICATORS catalog of src/utils.py, in source order, with the
source weights written as exact rationals. -/
def RULE_INDICATORS : List Indicator := [
  { pattern := fun t => wbAny t ["layoff", "layoffs", "downsiz", "downsizings",
      "firing", "fired", "laid off", "we may let", "we may be letting",
      "position is at risk"],
    weight := 5/2,
    description := "Layoff / job insecurity phrasing" },
  { pattern := fun t => wbAny t ["password", "credentials", "login", "ssn",
      "social security", "bank details", "account number",
      "confirm your identity", "verify your identity", "verify your account",
      "confirm your details"],
    weight := 2,
    description := "Request for credentials / personal info" },
  { pattern := fun t => wbAny t ["urgent", "immediately", "right now", "asap",
      "today", "this minute", "immediate action", "required now", "must"],
    weight := 6/5,
    description := "Urgency pressure" },
  { pattern := fun t => wbAny t ["so upset", "devastated", "terrible news",
      "shocking", "can" ++ APOS ++ "t believe", "sorry to hear",
      "must be hard", "feeling stressed", "worried about"],
    weight := 13/10,
    description := "Emotional appeal / sympathy" },
  { pattern := fun t => wbAny t ["congratulations", "you" ++ APOS ++ "ve won",
      "exclusive offer", "selected for", "prize", "claim your reward",
      "pre-approved"],
    weight := 8/5,
    description := "Reward / prize lure" },
  { pattern := impersonationMatch,
    weight := 1,
    description := "Impersonation / sender claim" },
  { pattern := linkMatch,
    weight := 4/5,
    description := "Presence of (possibly malicious) links" }
]

/-- Sum of all weights of a catalog. -/
def catalogWeight (catalog : List Indicator) : ℚ :=
  (catalog.map Indicator.weight).sum

/-- The indicators of a catalog whose pattern matches the text, in catalog
order. -/
def matchedIndicators (catalog : List Indicator) (text : String) : List Indicator :=
  catalog.filter (fun ind => ind.pattern text)

/-- Deduplication keeping first occurrences; models Python list(set(xs))
(whose true iteration order is hash-dependent and unspecified). -/
def pySetListAux (seen : List String) : List String → List String
  | [] => []
  | x :: xs => if x ∈ seen then pySetListAux seen xs else x :: pySetListAux (x :: seen) xs

/-- Model of Python list(set(xs)). -/
def pySetList (l : List String) : List String := pySetListAux [] l

/-- rule_score_and_triggers of src/utils.py, generalized over the catalog:
early return (0, []) on empty text, otherwise the sum of the matched
weights, normalized by the catalog weight (0 when the catalog weight is
not positive) and clamped above by 1, together with the matched
descriptions passed through list(set(...)). -/
def rule_score_and_triggers_cat (catalog : List Indicator) (text : String) :
    ℚ × List String :=
  if text.isEmpty then (0, [])
  else
    let matched := matchedIndicators catalog text
    let total := (matched.map Indicator.weight).sum
    let maxScore := catalogWeight catalog
    let normalized := if 0 < maxScore then min 1 (total / maxScore) else 0
    (normalized, pySetList (matched.map Indicator.description))

/-- The module-level constant of src/utils.py. -/
def _MAX_RULE_SCORE : ℚ := catalogWeight RULE_INDICATORS

/-- rule_score_and_triggers of src/utils.py applied to the fixed catalog. -/
def rule_score_and_triggers (text : String) : ℚ × List String :=
  rule_score_and_triggers_cat RULE_INDICATORS text

/-- model_social_prob of src/utils.py.  The loaded pipeline is abstract: the
outer none models a missing artifact (social_clf is None), an inner none
models predict_proba raising (the except branch), and otherwise the
class-1 probability is returned. -/
def model_social_prob (social_clf : Option (String → Option ℚ)) (text : String) :
    Option ℚ :=
  match social_clf with
  | none => none
  | some predict => predict text

/-- DEFAULT_SOCIAL_THRESHOLD of src/utils.py. -/
def DEFAULT_SOCIAL_THRESHOLD : ℚ := 9/20

/-- Default COMBINE_ALPHA of src/utils.py (env default 0.7). -/
def COMBINE_ALPHA : ℚ := 7/10

/-- Module-level threshold resolution of src/utils.py (lines 46-70).
env_thresh: none when the SOCIAL_THRESHOLD variable is unset, some none
when it is set but float() raises, some (some v) when it parses to v.
loaded_threshold: none when the artifact file is absent, unreadable or
unparseable, some w when it loads as w. -/
def resolve_social_threshold (env_thresh : Option (Option ℚ))
    (loaded_threshold : Option ℚ) : ℚ :=
  match env_thresh with
  | some (some v) => v
  | some none => loaded_threshold.getD DEFAULT_SOCIAL_THRESHOLD
  | none => loaded_threshold.getD DEFAULT_SOCIAL_THRESHOLD

/-- Clamp to the unit interval, as in line 144 of src/utils.py. -/
def clamp01 (x : ℚ) : ℚ := max 0 (min 1 x)

/-- The fusion step of classify_social_combined (lines 139-142): the rule
score alone when the model probability is absent, otherwise the convex
combination with weight combine_alpha on the model probability. -/
def combineProb (combine_alpha : ℚ) (model_prob : Option ℚ) (rscore : ℚ) : ℚ :=
  match model_prob with
  | none => rscore
  | some p => combine_alpha * p + (1 - combine_alpha) * rscore

/-- The result dictionary of classify_social_combined. -/
structure Decision where
  model_prob : Option ℚ
  rule_score : ℚ
  combined_prob : ℚ
  threshold : ℚ
  label : String
  triggers : List String

/-- The labelling rule of line 147 of src/utils.py, as a function of the
combined probability and the threshold. -/
def labelOf (combined threshold : ℚ) : String :=
  if threshold ≤ combined then "Attack 🎭" else "No Attack 🙂"

/-- classify_social_combined of src/utils.py (lines 134-158).  text is
optional; Python replaces a falsy argument by the empty string. -/
def classify_social_combined (social_clf : Option (String → Option ℚ))
    (combine_alpha social_threshold : ℚ) (text : Option String) : Decision :=
  let txt := text.getD ""
  let mp := model_social_prob social_clf txt
  let rscore := (rule_score_and_triggers txt).1
  let trig := (rule_score_and_triggers txt).2
  let combined := clamp01 (combineProb combine_alpha mp rscore)
  { model_prob := mp
    rule_score := rscore
    combined_prob := combined
    threshold := social_threshold
    label := if social_threshold ≤ combined then "Attack 🎭" else "No Attack 🙂"
    triggers := trig }

/-- The overlap check of make_nonoverlapping_split: is some text of the
test partition also a text of the train partition. -/
def hasOverlapB (train test : List (String × Bool)) : Bool :=
  test.any (fun r => train.any (fun s => s.1 == r.1))

/-- Texts of a partition of labelled rows. -/
def textsOf (rows : List (String × Bool)) : List String := rows.map Prod.fst

/-- make_nonoverlapping_split of src/train_social.py (lines 67-85).  The
bounded list of randomized stratified candidate splits and the single
fallback split of train_test_split are produced by sklearn and are
modelled as inputs; the function returns the first candidate with no
text overlap, and otherwise the fallback with every test row whose text
also occurs in train removed. -/
def make_nonoverlapping_split
    (candidates : List (List (String × Bool) × List (String × Bool)))
    (fallback : List (String × Bool) × List (String × Bool)) :
    List (String × Bool) × List (String × Bool) :=
  match candidates.find? (fun c => !hasOverlapB c.1 c.2) with
  | some c => c
  | none =>
    (fallback.1, fallback.2.filter (fun r => !(fallback.1.any (fun s => s.1 == r.1))))

/-- The two candidate classifier families of src/train_social.py. -/
inductive ModelFamily where
  | LogisticRegression : ModelFamily
  | MultinomialNB : ModelFamily
  deriving DecidableEq

/-- The final model selection of src/train_social.py (lines 151-158):
LogisticRegression when its test F1 is greater than or equal to the
MultinomialNB test F1, MultinomialNB otherwise. -/
def select_best_model (f1_lr f1_nb : ℚ) : ModelFamily :=
  if f1_nb ≤ f1_lr then ModelFamily.LogisticRegression else ModelFamily.MultinomialNB

/-- The epsilon of the F1 computation at line 166 of src/train_social.py. -/
def F1_EPS : ℚ := 1 / 100000000

/-- The per-point F1 array of line 166: computed over all but the last
precision-recall point (the appended sentinel point has no threshold). -/
def f1_scores (prec recs : List ℚ) : List ℚ :=
  List.zipWith (fun p r => 2 * (p * r) / (p + r + F1_EPS)) prec.dropLast recs.dropLast

/-- Maximum of a rational list (0 for the empty list, never used there). -/
def listMax : List ℚ → ℚ
  | [] => 0
  | x :: xs => xs.foldl max x

/-- Index of the first occurrence of a value in a rational list. -/
def firstIdxOf (a : ℚ) : List ℚ → ℕ
  | [] => 0
  | x :: xs => if x = a then 0 else firstIdxOf a xs + 1

/-- np.nanargmax over rationals: the index of the first occurrence of the
maximum (no NaN can arise here since the F1 denominators are positive). -/
def nanargmaxIdx (l : List ℚ) : ℕ := firstIdxOf (listMax l) l

/-- The threshold selection of src/train_social.py (lines 163-174).  The
curve is the precision_recall_curve output (precision, recall, thresholds)
for the held-out probabilities, or none when no probabilities are
available; the fallback threshold is 0.7 in both degenerate branches. -/
def select_threshold (curve : Option (List ℚ × List ℚ × List ℚ)) : ℚ :=
  match curve with
  | none => 7/10
  | some (prec, recs, thresh) =>
    let f1s := f1_scores prec recs
    if 0 < f1s.length then thresh.getD (nanargmaxIdx f1s) 0 else 7/10

/-- Lexicographic strict order on character lists by code point, as Python
string comparison orders strings. -/
def strLtB : List Char → List Char → Bool
  | [], [] => false
  | [], _ :: _ => true
  | _ :: _, [] => false
  | a :: as, b :: bs => a.toNat.blt b.toNat || (a == b && strLtB as bs)

/-- Non-strict lexicographic order on strings. -/
def strLeB (a b : String) : Bool := !(strLtB b.toList a.toList)

/-- Insertion into a list sorted by strLeB. -/
def insertStr (x : String) : List String → List String
  | [] => [x]
  | y :: ys => if strLeB x y then x :: y :: ys else y :: insertStr x ys

/-- Modelled from the spec: the sorted(triggers) display order the
specification prescribes for the triggers of a Decision (Python sorted,
lexicographic by code point); the source itself applies no sorting. -/
def sortStrings : List String → List String
  | [] => []
  | x :: xs => insertStr x (sortStrings xs)

/-! ## Helper lemmas -/

lemma pySetListAux_mem (s : String) (seen l : List String) :
    s ∈ pySetListAux seen l ↔ s ∈ l ∧ s ∉ seen := by
  induction l generalizing seen with
  | nil => simp [pySetListAux]
  | cons x xs ih =>
    by_cases hx : x ∈ seen
    · rw [pySetListAux, if_pos hx, ih]
      constructor
      · exact fun h => ⟨List.mem_cons_of_mem x h.1, h.2⟩
      · rintro ⟨h1, h2⟩
        rcases List.mem_cons.mp h1 with rfl | h1
        · exact absurd hx h2
        · exact ⟨h1, h2⟩
    · rw [pySetListAux, if_neg hx]
      constructor
      · intro h
        rcases List.mem_cons.mp h with rfl | h
        · exact ⟨List.mem_cons_self s xs, hx⟩
        · rw [ih] at h
          exact ⟨List.mem_cons_of_mem x h.1, fun hs => h.2 (List.mem_cons_of_mem x hs)⟩
      · rintro ⟨h1, h2⟩
        rcases List.mem_cons.mp h1 with rfl | h1
        · exact List.mem_cons_self s _
        · by_cases hsx : s = x
          · subst hsx; exact List.mem_cons_self s _
          · refine List.mem_cons_of_mem x ?_
            rw [ih]
            exact ⟨h1, fun hs => (List.mem_cons.mp hs).elim hsx h2⟩

lemma pySetListAux_nodup (seen l : List String) : (pySetListAux seen l).Nodup := by
  induction l generalizing seen with
  | nil => simp [pySetListAux]
  | cons x xs ih =>
    by_cases hx : x ∈ seen
    · rw [pySetListAux, if_pos hx]; exact ih seen
    · rw [pySetListAux, if_neg hx]
      refine List.nodup_cons.mpr ⟨?_, ih (x :: seen)⟩
      intro hmem
      exact ((pySetListAux_mem x (x :: seen) xs).mp hmem).2 (List.mem_cons_self x seen)

lemma pySetList_mem (s : String) (l : List String) : s ∈ pySetList l ↔ s ∈ l := by
  simp [pySetList, pySetListAux_mem]

lemma pySetList_nodup (l : List String) : (pySetList l).Nodup := pySetListAux_nodup [] l

lemma matched_weight_nonneg (cat : List Indicator) (t : String)
    (h : ∀ i ∈ cat, 0 ≤ i.weight) :
    0 ≤ ((matchedIndicators cat t).map Indicator.weight).sum := by
  apply List.sum_nonneg
  intro x hx
  rcases List.mem_map.mp hx with ⟨i, hi, rfl⟩
  exact h i (List.mem_of_mem_filter hi)

lemma matched_weight_le (cat : List Indicator) (t : String)
    (h : ∀ i ∈ cat, 0 ≤ i.weight) :
    ((matchedIndicators cat t).map Indicator.weight).sum ≤ catalogWeight cat := by
  simp only [catalogWeight, matchedIndicators]
  refine List.Sublist.sum_le_sum
    (List.Sublist.map Indicator.weight (List.filter_sublist cat)) ?_
  intro a ha
  rcases List.mem_map.mp ha with ⟨i, hi, rfl⟩
  exact h i hi

lemma RULE_weights_pos : ∀ i ∈ RULE_INDICATORS, (0:ℚ) < i.weight := by
  norm_num [RULE_INDICATORS, List.forall_mem_cons]

lemma RULE_weights_nonneg : ∀ i ∈ RULE_INDICATORS, (0:ℚ) ≤ i.weight :=
  fun i hi => le_of_lt (RULE_weights_pos i hi)

lemma MAX_RULE_SCORE_eq : _MAX_RULE_SCORE = 52/5 := by
  norm_num [_MAX_RULE_SCORE, catalogWeight, RULE_INDICATORS]

lemma MAX_RULE_SCORE_pos : 0 < _MAX_RULE_SCORE := by
  rw [MAX_RULE_SCORE_eq]; norm_num

lemma no_pattern_matches_empty : ∀ i ∈ RULE_INDICATORS, i.pattern "" = false := by decide

lemma matched_empty_nil : matchedIndicators RULE_INDICATORS "" = [] := by
  rw [matchedIndicators, List.filter_eq_nil_iff]
  intro a ha
  simp [no_pattern_matches_empty a ha]

lemma rule_score_cat_empty (cat : List Indicator) (t : String) (he : t.isEmpty = true) :
    rule_score_and_triggers_cat cat t = (0, []) := by
  rw [rule_score_and_triggers_cat]; simp [he]

lemma rule_score_cat_fst (cat : List Indicator) (t : String) (he : t.isEmpty = false) :
    (rule_score_and_triggers_cat cat t).1 =
      if 0 < catalogWeight cat
      then min 1 (((matchedIndicators cat t).map Indicator.weight).sum / catalogWeight cat)
      else 0 := by
  rw [rule_score_and_triggers_cat]; simp [he]

lemma rule_score_cat_snd (cat : List Indicator) (t : String) (he : t.isEmpty = false) :
    (rule_score_and_triggers_cat cat t).2 =
      pySetList ((matchedIndicators cat t).map Indicator.description) := by
  rw [rule_score_and_triggers_cat]; simp [he]

lemma rule_score_eq_div (t : String) :
    (rule_score_and_triggers t).1 =
      ((matchedIndicators RULE_INDICATORS t).map Indicator.weight).sum / _MAX_RULE_SCORE := by
  by_cases he : t.isEmpty = true
  · have ht : t = "" := (String.isEmpty_iff t).mp he
    subst ht
    rw [rule_score_and_triggers, rule_score_cat_empty _ _ he, matched_empty_nil]
    simp
  · have he2 : t.isEmpty = false := by simpa using he
    have hM : catalogWeight RULE_INDICATORS = _MAX_RULE_SCORE := rfl
    rw [rule_score_and_triggers, rule_score_cat_fst _ _ he2, hM, if_pos MAX_RULE_SCORE_pos]
    apply min_eq_right
    rw [div_le_one MAX_RULE_SCORE_pos]
    exact matched_weight_le RULE_INDICATORS t RULE_weights_nonneg

lemma rule_score_nonneg (t : String) : 0 ≤ (rule_score_and_triggers t).1 := by
  rw [rule_score_eq_div]
  exact div_nonneg (matched_weight_nonneg _ _ RULE_weights_nonneg)
    (le_of_lt MAX_RULE_SCORE_pos)

lemma rule_score_le_one (t : String) : (rule_score_and_triggers t).1 ≤ 1 := by
  rw [rule_score_eq_div, div_le_one MAX_RULE_SCORE_pos]
  exact matched_weight_le _ _ RULE_weights_nonneg

lemma rule_score_zero_iff (t : String) :
    (rule_score_and_triggers t).1 = 0 ↔ matchedIndicators RULE_INDICATORS t = [] := by
  rw [rule_score_eq_div, div_eq_zero_iff]
  constructor
  · rintro (h | h)
    · by_contra hne
      have hpos : 0 < ((matchedIndicators RULE_INDICATORS t).map Indicator.weight).sum := by
        refine List.sum_pos _ ?_ ?_
        · intro x hx
          rcases List.mem_map.mp hx with ⟨i, hi, rfl⟩
          exact RULE_weights_pos i (List.mem_of_mem_filter hi)
        · exact fun hmap => hne (List.map_eq_nil_iff.mp hmap)
      linarith
    · exact absurd h (ne_of_gt MAX_RULE_SCORE_pos)
  · intro h; rw [h]; simp

lemma triggers_eq (t : String) :
    (rule_score_and_triggers t).2 =
      pySetList ((matchedIndicators RULE_INDICATORS t).map Indicator.description) := by
  by_cases he : t.isEmpty = true
  · have ht : t = "" := (String.isEmpty_iff t).mp he
    subst ht
    rw [rule_score_and_triggers, rule_score_cat_empty _ _ he, matched_empty_nil]
    simp [pySetList, pySetListAux]
  · have he2 : t.isEmpty = false := by simpa using he
    rw [rule_score_and_triggers, rule_score_cat_snd _ _ he2]

/-! ## Rule engine claims -/

/-- C3: for every input text, rule_score_and_triggers returns a normalized
score in the unit interval equal to the sum of the matched indicator
weights divided by the total catalog weight (0 for an empty catalog); the
score is 0 exactly when no indicator pattern matches, and empty or absent
text yields score 0 and an empty triggers list. -/
theorem rule_score_normalized_spec (text : String) :
    0 ≤ (rule_score_and_triggers text).1 ∧
    (rule_score_and_triggers text).1 ≤ 1 ∧
    (rule_score_and_triggers text).1 =
      ((matchedIndicators RULE_INDICATORS text).map Indicator.weight).sum / _MAX_RULE_SCORE ∧
    ((rule_score_and_triggers text).1 = 0 ↔
      ∀ ind ∈ RULE_INDICATORS, ind.pattern text = false) ∧
    rule_score_and_triggers "" = (0, []) ∧
    (∀ t, rule_score_and_triggers_cat [] t = (0, [])) := by
  refine ⟨rule_score_nonneg text, rule_score_le_one text, rule_score_eq_div text, ?_, ?_, ?_⟩
  · rw [rule_score_zero_iff]
    simp only [matchedIndicators]
    rw [List.filter_eq_nil_iff]
    simp
  · exact rule_score_cat_empty RULE_INDICATORS "" (by decide)
  · intro t
    by_cases he : t.isEmpty = true
    · exact rule_score_cat_empty [] t he
    · have he2 : t.isEmpty = false := by simpa using he
      rw [Prod.ext_iff]
      constructor
      · rw [rule_score_cat_fst [] t he2]
        simp [catalogWeight]
      · rw [rule_score_cat_snd [] t he2]
        simp [matchedIndicators, pySetList, pySetListAux]

/-- C8: a matching indicator contributes its weight exactly once, so any
two texts matched by exactly the same set of indicators receive the same
rule score (in particular, duplicating an already matched trigger phrase
does not change the score). -/
theorem rule_score_match_set_invariant (t1 t2 : String)
    (h : ∀ ind ∈ RULE_INDICATORS, ind.pattern t1 = ind.pattern t2) :
    (rule_score_and_triggers t1).1 = (rule_score_and_triggers t2).1 := by
  rw [rule_score_eq_div, rule_score_eq_div]
  have hm : matchedIndicators RULE_INDICATORS t1 = matchedIndicators RULE_INDICATORS t2 := by
    simp only [matchedIndicators]
    exact List.filter_congr (fun a ha => h a ha)
  rw [hm]

/-- Witness for C8: the text with a duplicated urgency trigger phrase is
matched by the same indicator set and receives the same score. -/
theorem rule_score_match_set_invariant_witness :
    (rule_score_and_triggers "urgent").1 = (rule_score_and_triggers "urgent urgent").1 :=
  rule_score_match_set_invariant "urgent" "urgent urgent" (by decide)

/-- C5 counterexample: at a concrete input matching the layoff and the
emotional-appeal indicators, the triggers field of the returned Decision
is not the sorted list of the matched descriptions; the source applies
list(set(...)) and no sort, so the catalog-order list comes back. -/
theorem triggers_not_sorted_cex :
    (classify_social_combined none COMBINE_ALPHA DEFAULT_SOCIAL_THRESHOLD
        (some "layoffs so upset")).triggers ≠
      sortStrings ((matchedIndicators RULE_INDICATORS "layoffs so upset").map
        Indicator.description) := by
  decide

/-- C5 amended: the triggers field of the Decision contains exactly the
descriptions of the matched indicators, with duplicates collapsed, in
first-occurrence catalog order rather than sorted order. -/
theorem triggers_membership_nodup (social_clf : Option (String → Option ℚ))
    (combine_alpha social_threshold : ℚ) (text : Option String) :
    (classify_social_combined social_clf combine_alpha social_threshold text).triggers.Nodup ∧
    ∀ s, (s ∈ (classify_social_combined social_clf combine_alpha social_threshold text).triggers ↔
      ∃ ind ∈ matchedIndicators RULE_INDICATORS (text.getD ""), ind.description = s) := by
  have htr : (classify_social_combined social_clf combine_alpha social_threshold text).triggers
      = (rule_score_and_triggers (text.getD "")).2 := rfl
  rw [htr, triggers_eq]
  refine ⟨pySetList_nodup _, fun s => ?_⟩
  rw [pySetList_mem, List.mem_map]

/-! ## Score fusion claims -/

lemma clamp01_of_unit (x : ℚ) (h0 : 0 ≤ x) (h1 : x ≤ 1) : clamp01 x = x := by
  rw [clamp01, min_eq_right h1, max_eq_right h0]

lemma convex_combination_bounds (a p r : ℚ) (ha0 : 0 ≤ a) (ha1 : a ≤ 1) :
    min p r ≤ a * p + (1 - a) * r ∧ a * p + (1 - a) * r ≤ max p r := by
  have ha1' : 0 ≤ 1 - a := by linarith
  constructor
  · calc min p r = a * min p r + (1 - a) * min p r := by ring
    _ ≤ a * p + (1 - a) * r :=
        add_le_add (mul_le_mul_of_nonneg_left (min_le_left p r) ha0)
          (mul_le_mul_of_nonneg_left (min_le_right p r) ha1')
  · calc a * p + (1 - a) * r
        ≤ a * max p r + (1 - a) * max p r :=
        add_le_add (mul_le_mul_of_nonneg_left (le_max_left p r) ha0)
          (mul_le_mul_of_nonneg_left (le_max_right p r) ha1')
    _ = max p r := by ring

/-- C1: when the model probability is present and the mixing weight lies in
the unit interval, the combined probability equals the convex combination
of the model probability and the rule score, clamped to the unit interval
(the clamp is inert), and lies between the minimum and the maximum of the
two inputs, hence in the unit interval. -/
theorem classify_combined_convex (social_clf : Option (String → Option ℚ))
    (combine_alpha social_threshold : ℚ) (text : Option String) (p : ℚ)
    (hm : model_social_prob social_clf (text.getD "") = some p)
    (hp0 : 0 ≤ p) (hp1 : p ≤ 1) (ha0 : 0 ≤ combine_alpha) (ha1 : combine_alpha ≤ 1) :
    (classify_social_combined social_clf combine_alpha social_threshold text).combined_prob =
      clamp01 (combine_alpha * p + (1 - combine_alpha) *
        (rule_score_and_triggers (text.getD "")).1) ∧
    (classify_social_combined social_clf combine_alpha social_threshold text).combined_prob =
      combine_alpha * p + (1 - combine_alpha) * (rule_score_and_triggers (text.getD "")).1 ∧
    min p ((rule_score_and_triggers (text.getD "")).1) ≤
      (classify_social_combined social_clf combine_alpha social_threshold text).combined_prob ∧
    (classify_social_combined social_clf combine_alpha social_threshold text).combined_prob ≤
      max p ((rule_score_and_triggers (text.getD "")).1) ∧
    0 ≤ (classify_social_combined social_clf combine_alpha social_threshold text).combined_prob ∧
    (classify_social_combined social_clf combine_alpha social_threshold text).combined_prob ≤ 1 := by
  have hc0 : (classify_social_combined social_clf combine_alpha social_threshold text).combined_prob
      = clamp01 (combineProb combine_alpha (model_social_prob social_clf (text.getD ""))
          ((rule_score_and_triggers (text.getD "")).1)) := rfl
  rw [hm] at hc0
  have hc : (classify_social_combined social_clf combine_alpha social_threshold text).combined_prob
      = clamp01 (combine_alpha * p + (1 - combine_alpha) *
          (rule_score_and_triggers (text.getD "")).1) := hc0
  have hr0 : 0 ≤ (rule_score_and_triggers (text.getD "")).1 := rule_score_nonneg _
  have hr1 : (rule_score_and_triggers (text.getD "")).1 ≤ 1 := rule_score_le_one _
  obtain ⟨hmin, hmax⟩ := convex_combination_bounds combine_alpha p
    ((rule_score_and_triggers (text.getD "")).1) ha0 ha1
  have h0 : 0 ≤ combine_alpha * p + (1 - combine_alpha) *
      (rule_score_and_triggers (text.getD "")).1 := le_trans (le_min hp0 hr0) hmin
  have h1 : combine_alpha * p + (1 - combine_alpha) *
      (rule_score_and_triggers (text.getD "")).1 ≤ 1 := le_trans hmax (max_le hp1 hr1)
  have hceq : (classify_social_combined social_clf combine_alpha social_threshold text).combined_prob
      = combine_alpha * p + (1 - combine_alpha) *
          (rule_score_and_triggers (text.getD "")).1 := by
    rw [hc, clamp01_of_unit _ h0 h1]
  refine ⟨hc, hceq, ?_, ?_, ?_, ?_⟩
  · rw [hceq]; exact hmin
  · rw [hceq]; exact hmax
  · rw [hceq]; exact h0
  · rw [hceq]; exact h1

/-- Witness for C1 at a concrete classifier, weight, threshold and text. -/
theorem classify_combined_convex_witness :
    (classify_social_combined (some (fun _ => some (1/2))) (7/10) (9/20) none).combined_prob =
      clamp01 ((7/10) * (1/2) + (1 - 7/10) *
        (rule_score_and_triggers ((none : Option String).getD "")).1) ∧
    (classify_social_combined (some (fun _ => some (1/2))) (7/10) (9/20) none).combined_prob =
      (7/10) * (1/2) + (1 - 7/10) * (rule_score_and_triggers ((none : Option String).getD "")).1 ∧
    min (1/2) ((rule_score_and_triggers ((none : Option String).getD "")).1) ≤
      (classify_social_combined (some (fun _ => some (1/2))) (7/10) (9/20) none).combined_prob ∧
    (classify_social_combined (some (fun _ => some (1/2))) (7/10) (9/20) none).combined_prob ≤
      max (1/2) ((rule_score_and_triggers ((none : Option String).getD "")).1) ∧
    0 ≤ (classify_social_combined (some (fun _ => some (1/2))) (7/10) (9/20) none).combined_prob ∧
    (classify_social_combined (some (fun _ => some (1/2))) (7/10) (9/20) none).combined_prob ≤ 1 :=
  classify_combined_convex (some (fun _ => some (1/2))) (7/10) (9/20) none (1/2) rfl
    (by norm_num) (by norm_num) (by norm_num) (by norm_num)

/-- C2: the label of the returned Decision is Attack exactly when the
combined probability is greater than or equal to the threshold (boundary
inclusive), and the label is the pure function labelOf of the pair of the
combined probability and the threshold. -/
theorem classify_label_iff_threshold (social_clf : Option (String → Option ℚ))
    (combine_alpha social_threshold : ℚ) (text : Option String) :
    ((classify_social_combined social_clf combine_alpha social_threshold text).label = "Attack 🎭"
      ↔ social_threshold ≤
        (classify_social_combined social_clf combine_alpha social_threshold text).combined_prob) ∧
    (classify_social_combined social_clf combine_alpha social_threshold text).label =
      labelOf
        (classify_social_combined social_clf combine_alpha social_threshold text).combined_prob
        (classify_social_combined social_clf combine_alpha social_threshold text).threshold := by
  have hl : (classify_social_combined social_clf combine_alpha social_threshold text).label
      = labelOf
          (classify_social_combined social_clf combine_alpha social_threshold text).combined_prob
          social_threshold := rfl
  refine ⟨?_, hl⟩
  rw [hl, labelOf]
  by_cases h : social_threshold ≤
      (classify_social_combined social_clf combine_alpha social_threshold text).combined_prob
  · rw [if_pos h]; exact iff_of_true rfl h
  · rw [if_neg h]; exact iff_of_false (by decide) h

/-- C4: when the classifier artifact is absent or inference fails, the
returned Decision has an absent model probability and the combined
probability equals the rule score exactly (the function itself is total,
so no exception reaches the caller). -/
theorem classify_model_absent (social_clf : Option (String → Option ℚ))
    (combine_alpha social_threshold : ℚ) (text : Option String)
    (hm : model_social_prob social_clf (text.getD "") = none) :
    (classify_social_combined social_clf combine_alpha social_threshold text).model_prob = none ∧
    (classify_social_combined social_clf combine_alpha social_threshold text).combined_prob =
      (classify_social_combined social_clf combine_alpha social_threshold text).rule_score ∧
    (∀ t2, model_social_prob none t2 = none) := by
  have h1 : (classify_social_combined social_clf combine_alpha social_threshold text).model_prob
      = model_social_prob social_clf (text.getD "") := rfl
  have hc : (classify_social_combined social_clf combine_alpha social_threshold text).combined_prob
      = clamp01 (combineProb combine_alpha (model_social_prob social_clf (text.getD ""))
          ((rule_score_and_triggers (text.getD "")).1)) := rfl
  refine ⟨by rw [h1, hm], ?_, fun t2 => rfl⟩
  rw [hc, hm]
  exact clamp01_of_unit _ (rule_score_nonneg _) (rule_score_le_one _)

/-- Witness for C4 with no classifier artifact loaded. -/
theorem classify_model_absent_witness :
    (classify_social_combined none COMBINE_ALPHA DEFAULT_SOCIAL_THRESHOLD
      (some "hello")).model_prob = none ∧
    (classify_social_combined none COMBINE_ALPHA DEFAULT_SOCIAL_THRESHOLD
        (some "hello")).combined_prob =
      (classify_social_combined none COMBINE_ALPHA DEFAULT_SOCIAL_THRESHOLD
        (some "hello")).rule_score ∧
    (∀ t2, model_social_prob none t2 = none) :=
  classify_model_absent none COMBINE_ALPHA DEFAULT_SOCIAL_THRESHOLD (some "hello") rfl

/-! ## Training pipeline claims -/

lemma hasOverlapB_false_iff (train test : List (String × Bool)) :
    hasOverlapB train test = false ↔ ∀ s ∈ textsOf test, s ∉ textsOf train := by
  constructor
  · intro h s hs hcontra
    simp only [textsOf, List.mem_map] at hs hcontra
    rcases hs with ⟨r, hr, rfl⟩
    rcases hcontra with ⟨q, hq, hq1⟩
    have hany : hasOverlapB train test = true := by
      rw [hasOverlapB]
      exact List.any_eq_true.mpr ⟨r, hr, List.any_eq_true.mpr ⟨q, hq, by simp [hq1]⟩⟩
    rw [h] at hany
    cases hany
  · intro h
    by_contra hne
    have htrue : hasOverlapB train test = true := by
      cases hb : hasOverlapB train test
      · exact absurd hb hne
      · rfl
    rw [hasOverlapB] at htrue
    rcases List.any_eq_true.mp htrue with ⟨r, hr, hany2⟩
    rcases List.any_eq_true.mp hany2 with ⟨q, hq, hbeq⟩
    have hq1 : q.1 = r.1 := by simpa using hbeq
    exact h r.1 (List.mem_map.mpr ⟨r, hr, rfl⟩) (List.mem_map.mpr ⟨q, hq, hq1⟩)

/-- C6: the split returned by make_nonoverlapping_split never has a text
present in both partitions: either a candidate stratified split with no
overlap is found, or the fallback split is filtered so that every test row
whose text occurs in train is removed. -/
theorem split_no_overlap
    (candidates : List (List (String × Bool) × List (String × Bool)))
    (fallback : List (String × Bool) × List (String × Bool)) :
    hasOverlapB (make_nonoverlapping_split candidates fallback).1
      (make_nonoverlapping_split candidates fallback).2 = false ∧
    ∀ s ∈ textsOf (make_nonoverlapping_split candidates fallback).2,
      s ∉ textsOf (make_nonoverlapping_split candidates fallback).1 := by
  have hB : hasOverlapB (make_nonoverlapping_split candidates fallback).1
      (make_nonoverlapping_split candidates fallback).2 = false := by
    cases hf : candidates.find? (fun c => !hasOverlapB c.1 c.2) with
    | some c =>
      have h1 : make_nonoverlapping_split candidates fallback = c := by
        rw [make_nonoverlapping_split, hf]
      rw [h1]
      have h2 := List.find?_some hf
      simpa using h2
    | none =>
      have h1 : make_nonoverlapping_split candidates fallback =
          (fallback.1, fallback.2.filter (fun r => !(fallback.1.any (fun s => s.1 == r.1)))) := by
        rw [make_nonoverlapping_split, hf]
      rw [h1]
      apply (hasOverlapB_false_iff _ _).mpr
      intro s hs hcontra
      simp only [textsOf, List.mem_map] at hs hcontra
      rcases hs with ⟨r, hr, rfl⟩
      rcases List.mem_filter.mp hr with ⟨hr2, hpred⟩
      rcases hcontra with ⟨q, hq, hq1⟩
      have hany : fallback.1.any (fun s => s.1 == r.1) = true :=
        List.any_eq_true.mpr ⟨q, hq, by simp [hq1]⟩
      simp [hany] at hpred
  exact ⟨hB, (hasOverlapB_false_iff _ _).mp hB⟩

lemma le_foldl_max (l : List ℚ) (a : ℚ) : a ≤ l.foldl max a := by
  induction l generalizing a with
  | nil => exact le_refl a
  | cons x xs ih =>
    rw [List.foldl_cons]
    exact le_trans (le_max_left a x) (ih (max a x))

lemma mem_le_foldl_max (l : List ℚ) (a x : ℚ) (hx : x ∈ l) : x ≤ l.foldl max a := by
  induction l generalizing a with
  | nil => cases hx
  | cons y ys ih =>
    rw [List.foldl_cons]
    rcases List.mem_cons.mp hx with rfl | h
    · exact le_trans (le_max_right a x) (le_foldl_max ys (max a x))
    · exact ih (max a y) h

lemma foldl_max_mem (l : List ℚ) (a : ℚ) : l.foldl max a = a ∨ l.foldl max a ∈ l := by
  induction l generalizing a with
  | nil => exact Or.inl rfl
  | cons x xs ih =>
    rw [List.foldl_cons]
    rcases ih (max a x) with h | h
    · rcases max_choice a x with h2 | h2
      · exact Or.inl (h.trans h2)
      · exact Or.inr (by rw [h, h2]; exact List.mem_cons_self x xs)
    · exact Or.inr (List.mem_cons_of_mem x h)

lemma listMax_mem (l : List ℚ) (h : l ≠ []) : listMax l ∈ l := by
  match l with
  | x :: xs =>
    rw [listMax]
    rcases foldl_max_mem xs x with h1 | h1
    · rw [h1]; exact List.mem_cons_self x xs
    · exact List.mem_cons_of_mem x h1

lemma le_listMax (l : List ℚ) (x : ℚ) (hx : x ∈ l) : x ≤ listMax l := by
  match l with
  | y :: ys =>
    rw [listMax]
    rcases List.mem_cons.mp hx with rfl | h
    · exact le_foldl_max ys x
    · exact mem_le_foldl_max ys y x h

lemma firstIdxOf_lt_length (a : ℚ) (l : List ℚ) (h : a ∈ l) :
    firstIdxOf a l < l.length := by
  induction l with
  | nil => cases h
  | cons x xs ih =>
    rw [firstIdxOf]
    by_cases hx : x = a
    · simp [hx]
    · rw [if_neg hx, List.length_cons]
      rcases List.mem_cons.mp h with h1 | h1
      · exact absurd h1.symm hx
      · exact Nat.succ_lt_succ (ih h1)

lemma getD_firstIdxOf (a : ℚ) (l : List ℚ) (h : a ∈ l) :
    l.getD (firstIdxOf a l) 0 = a := by
  induction l with
  | nil => cases h
  | cons x xs ih =>
    rw [firstIdxOf]
    by_cases hx : x = a
    · rw [if_pos hx, List.getD_cons_zero]; exact hx
    · rw [if_neg hx, List.getD_cons_succ]
      rcases List.mem_cons.mp h with h1 | h1
      · exact absurd h1.symm hx
      · exact ih h1

lemma getD_lt_firstIdxOf (a : ℚ) (l : List ℚ) (j : ℕ) (hj : j < firstIdxOf a l) :
    l.getD j 0 ≠ a := by
  induction l generalizing j with
  | nil => rw [firstIdxOf] at hj; cases hj
  | cons x xs ih =>
    rw [firstIdxOf] at hj
    by_cases hx : x = a
    · rw [if_pos hx] at hj; cases hj
    · rw [if_neg hx] at hj
      cases j with
      | zero => rw [List.getD_cons_zero]; exact hx
      | succ n =>
        rw [List.getD_cons_succ]
        exact ih n (Nat.lt_of_succ_lt_succ hj)

lemma sorted_getD_le (l : List ℚ) (hs : List.Sorted (fun a b : ℚ => a ≤ b) l)
    (i j : ℕ) (hij : i ≤ j) (hj : j < l.length) : l.getD i 0 ≤ l.getD j 0 := by
  rcases Nat.eq_or_lt_of_le hij with rfl | hlt
  · exact le_refl _
  · rw [List.getD_eq_getElem l 0 (lt_trans hlt hj), List.getD_eq_getElem l 0 hj]
    exact (List.pairwise_iff_getElem.mp hs) i j (lt_trans hlt hj) hj hlt

/-- C7: when probabilities are available, the selected threshold is the one
at the first index attaining the maximum of the per-point F1 array (so F1
is maximal there, every strictly earlier index has strictly smaller F1,
and with increasing thresholds every other maximizing index has a larger
or equal threshold); the degenerate cases return the fixed fallback 0.7. -/
theorem select_threshold_max_f1 (prec recs thresh : List ℚ)
    (hlen : prec.length = thresh.length + 1) (hlen2 : recs.length = prec.length)
    (hsorted : List.Sorted (fun a b : ℚ => a ≤ b) thresh) :
    (f1_scores prec recs = [] → select_threshold (some (prec, recs, thresh)) = 7/10) ∧
    (f1_scores prec recs ≠ [] →
      select_threshold (some (prec, recs, thresh)) =
        thresh.getD (nanargmaxIdx (f1_scores prec recs)) 0 ∧
      nanargmaxIdx (f1_scores prec recs) < thresh.length ∧
      (∀ j, j < (f1_scores prec recs).length →
        (f1_scores prec recs).getD j 0 ≤
          (f1_scores prec recs).getD (nanargmaxIdx (f1_scores prec recs)) 0) ∧
      (∀ j, j < (f1_scores prec recs).length →
        (f1_scores prec recs).getD j 0 =
          (f1_scores prec recs).getD (nanargmaxIdx (f1_scores prec recs)) 0 →
        thresh.getD (nanargmaxIdx (f1_scores prec recs)) 0 ≤ thresh.getD j 0)) ∧
    select_threshold none = 7/10 := by
  have hflen : (f1_scores prec recs).length = thresh.length := by
    rw [f1_scores, List.length_zipWith, List.length_dropLast, List.length_dropLast, hlen2, hlen]
    simp
  have hsel : select_threshold (some (prec, recs, thresh)) =
      if 0 < (f1_scores prec recs).length
      then thresh.getD (nanargmaxIdx (f1_scores prec recs)) 0 else 7/10 := rfl
  refine ⟨?_, ?_, rfl⟩
  · intro h
    rw [hsel, h]
    simp
  · intro hne
    have hpos : 0 < (f1_scores prec recs).length := List.length_pos.mpr hne
    have hmem : listMax (f1_scores prec recs) ∈ f1_scores prec recs := listMax_mem _ hne
    have hidx : nanargmaxIdx (f1_scores prec recs) < (f1_scores prec recs).length :=
      firstIdxOf_lt_length _ _ hmem
    have hval : (f1_scores prec recs).getD (nanargmaxIdx (f1_scores prec recs)) 0 =
        listMax (f1_scores prec recs) := getD_firstIdxOf _ _ hmem
    refine ⟨by rw [hsel, if_pos hpos], by rw [← hflen]; exact hidx, ?_, ?_⟩
    · intro j hj
      rw [hval]
      have hjm : (f1_scores prec recs).getD j 0 ∈ f1_scores prec recs := by
        rw [List.getD_eq_getElem _ 0 hj]
        exact List.getElem_mem hj
      exact le_listMax _ _ hjm
    · intro j hj heq
      by_cases hji : nanargmaxIdx (f1_scores prec recs) ≤ j
      · exact sorted_getD_le thresh hsorted _ j hji (hflen ▸ hj)
      · exfalso
        push_neg at hji
        exact getD_lt_firstIdxOf _ _ j hji (heq.trans hval)

/-- Witness for C7 on a concrete three-point precision-recall curve with
two increasing thresholds. -/
theorem select_threshold_max_f1_witness :
    (f1_scores [2/3, 1, 1] [1, 1/2, 0] = [] →
      select_threshold (some ([2/3, 1, 1], [1, 1/2, 0], ([3/10, 6/10] : List ℚ))) = 7/10) ∧
    (f1_scores [2/3, 1, 1] [1, 1/2, 0] ≠ [] →
      select_threshold (some ([2/3, 1, 1], [1, 1/2, 0], ([3/10, 6/10] : List ℚ))) =
        List.getD ([3/10, 6/10] : List ℚ) (nanargmaxIdx (f1_scores [2/3, 1, 1] [1, 1/2, 0])) 0 ∧
      nanargmaxIdx (f1_scores [2/3, 1, 1] [1, 1/2, 0]) < List.length ([3/10, 6/10] : List ℚ) ∧
      (∀ j, j < (f1_scores [2/3, 1, 1] [1, 1/2, 0]).length →
        (f1_scores [2/3, 1, 1] [1, 1/2, 0]).getD j 0 ≤
          (f1_scores [2/3, 1, 1] [1, 1/2, 0]).getD
            (nanargmaxIdx (f1_scores [2/3, 1, 1] [1, 1/2, 0])) 0) ∧
      (∀ j, j < (f1_scores [2/3, 1, 1] [1, 1/2, 0]).length →
        (f1_scores [2/3, 1, 1] [1, 1/2, 0]).getD j 0 =
          (f1_scores [2/3, 1, 1] [1, 1/2, 0]).getD
            (nanargmaxIdx (f1_scores [2/3, 1, 1] [1, 1/2, 0])) 0 →
        List.getD ([3/10, 6/10] : List ℚ) (nanargmaxIdx (f1_scores [2/3, 1, 1] [1, 1/2, 0])) 0 ≤
          List.getD ([3/10, 6/10] : List ℚ) j 0)) ∧
    select_threshold none = 7/10 :=
  select_threshold_max_f1 [2/3, 1, 1] [1, 1/2, 0] ([3/10, 6/10] : List ℚ)
    (by decide) (by decide) (by norm_num [List.sorted_cons])

/-- C9: the persisted winning classifier family is the one with the higher
held-out F1, and an exact tie selects the primary family
LogisticRegression. -/
theorem best_model_selection_spec (f1_lr f1_nb : ℚ) :
    (f1_nb < f1_lr → select_best_model f1_lr f1_nb = ModelFamily.LogisticRegression) ∧
    (f1_lr < f1_nb → select_best_model f1_lr f1_nb = ModelFamily.MultinomialNB) ∧
    (f1_lr = f1_nb → select_best_model f1_lr f1_nb = ModelFamily.LogisticRegression) := by
  refine ⟨fun h => ?_, fun h => ?_, fun h => ?_⟩
  · rw [select_best_model, if_pos (le_of_lt h)]
  · rw [select_best_model, if_neg (not_le.mpr h)]
  · rw [select_best_model, if_pos (le_of_eq h.symm)]

/-- C10: the deployed threshold resolution precedence: a parseable
SOCIAL_THRESHOLD environment value wins, otherwise the loaded artifact
value, otherwise the built-in default 0.45; an unparseable environment
value or a missing artifact falls through to the next source, and the
result is always defined. -/
theorem threshold_resolution_precedence (v w : ℚ) (loaded : Option ℚ) :
    resolve_social_threshold (some (some v)) loaded = v ∧
    resolve_social_threshold (some none) (some w) = w ∧
    resolve_social_threshold (some none) none = DEFAULT_SOCIAL_THRESHOLD ∧
    resolve_social_threshold none (some w) = w ∧
    resolve_social_threshold none none = DEFAULT_SOCIAL_THRESHOLD ∧
    DEFAULT_SOCIAL_THRESHOLD = 9/20 :=
  ⟨rfl, rfl, rfl, rfl, rfl, rfl⟩
